import Mathlib

/-!
Verification of the ch-go column codec (`proto.ColEnum16`, `proto.ColArr`)
and the ClickHouse server connection state machine (`ch.Server`,
`ch.ServerConn`), shallowly embedded from the Go sources.

Bytes are modelled as `Nat` values below 256, machine integers as `Int`/`Nat`
with explicit `% 2^w` where conversions matter. Fallible Go functions return
`Except GoErr`, with `GoErr` carrying the innermost sentinel error (so that
`errors.Is` against `io.ErrUnexpectedEOF` / `io.ErrShortWrite` is the test
`GoErr.base = ...`) plus the stack of `errors.Wrap` annotation messages.
-/

/-- Sentinel errors relevant to the code: `io.ErrUnexpectedEOF`,
`io.ErrShortWrite`, and ad-hoc errors created by `errors.Errorf` with a
format string. -/
inductive BaseErr : Type
  | unexpectedEOF
  | shortWrite
  | msg (s : String)
deriving DecidableEq, Repr

/-- A Go error value: the innermost sentinel plus the `errors.Wrap`
annotations added on the way up. `errors.Is e sentinel` is `e.base = sentinel`
because wrapping preserves the wrapped error in the chain. -/
structure GoErr : Type where
  base : BaseErr
  chain : List String
deriving DecidableEq, Repr

/-- `errors.Wrap(err, m)`: annotate an error, preserving its identity for
`errors.Is`. -/
def GoErr.wrap (e : GoErr) (m : String) : GoErr :=
  ⟨e.base, m :: e.chain⟩

/-- Lift a sentinel to an error value. -/
def GoErr.ofBase (b : BaseErr) : GoErr :=
  ⟨b, []⟩

/-- `errors.Errorf(format, args...)`: a fresh error carrying a message. -/
def GoErr.errorf (s : String) : GoErr :=
  ⟨.msg s, []⟩

/-- `proto.Buffer`: an append-only byte accumulator (field `Buf []byte`). -/
structure Buffer : Type where
  Buf : List Nat
deriving DecidableEq, Repr

/-- `proto.Reader` as used by the column codec: a cursor over a byte
source. -/
structure Reader : Type where
  data : List Nat
  pos : Nat
deriving DecidableEq, Repr

/-- Modelled from the spec: `Reader.ReadRaw(n)` returns exactly `n` bytes or
fails — "no call may return fewer bytes than requested without signaling an
explicit stream-ended-early condition" (the short-read invariant). The
`proto.Reader` implementation is not among the given sources; its contract is
taken from the spec, with the end-of-stream condition being
`io.ErrUnexpectedEOF` as the generated tests require. -/
def Reader.ReadRaw (r : Reader) (n : Nat) : Except GoErr (List Nat × Reader) :=
  if r.pos + n ≤ r.data.length then
    .ok ((r.data.drop r.pos).take n, ⟨r.data, r.pos + n⟩)
  else
    .error (GoErr.ofBase .unexpectedEOF)

/-- Go `uint16(v)` for an `Enum16` (= `int16`) value `v`: the two's-complement
bit pattern, i.e. `v mod 2^16` in `[0, 65536)`. -/
def uint16ofInt (v : Int) : Nat :=
  (v % 65536).toNat

/-- Go `Enum16(u)` for a `uint16` value `u`: reinterpret the bits as a signed
16-bit integer. -/
def enum16ofUint16 (u : Nat) : Int :=
  if u % 65536 < 32768 then (u % 65536 : Nat) else (u % 65536 : Nat) - 65536

/-- `binary.LittleEndian.PutUint16`: the two bytes of `u`, low byte first. -/
def putUint16 (u : Nat) : List Nat :=
  [u % 256, u / 256 % 256]

/-- `binary.LittleEndian.Uint16` over two bytes (each below 256 in Go's
`byte` type, which the `% 256` makes explicit). -/
def binUint16 (b0 b1 : Nat) : Nat :=
  b0 % 256 + b1 % 256 * 256

/-- `proto.Enum16` is `int16`; its values live in `[-2^15, 2^15)`. -/
def Enum16.isValid (v : Int) : Prop :=
  -32768 ≤ v ∧ v < 32768

instance (v : Int) : Decidable (Enum16.isValid v) := by
  unfold Enum16.isValid; infer_instance

/-- `proto.ColEnum16` is `[]Enum16`. -/
abbrev ColEnum16 := List Int

/-- `ColEnum16.Rows`: `len(c)`. -/
def ColEnum16.Rows (c : ColEnum16) : Nat :=
  c.length

/-- `ColEnum16.Reset`: `*c = (*c)[:0]`. -/
def ColEnum16.Reset (_ : ColEnum16) : ColEnum16 :=
  []

/-- `ColEnum16.EncodeColumn`: the Go code extends `b.Buf` by `2*len(c)` zero
bytes and then overwrites them in place with `bin.PutUint16(uint16(v))` for
each value, low byte first; the net effect is appending the two little-endian
bytes of each value in row order. -/
def ColEnum16.EncodeColumn (c : ColEnum16) (b : Buffer) : Buffer :=
  ⟨b.Buf ++ (c.map fun v => putUint16 (uint16ofInt v)).flatten⟩

/-- The unpacking loop of `ColEnum16.DecodeColumn`: for `i` stepping by 2 over
`data`, append `Enum16(bin.Uint16(data[i:i+2]))`. The data handed to it always
has even length (`rows * 2`). -/
def decodeEnum16Body : List Nat → List Int
  | b0 :: b1 :: rest => enum16ofUint16 (binUint16 b0 b1) :: decodeEnum16Body rest
  | [] => []
  | [_] => []

/-- `ColEnum16.DecodeColumn(r, rows)`: read `rows*2` raw bytes (wrapping a
read failure with "read"), unpack them and append to the column. -/
def ColEnum16.DecodeColumn (c : ColEnum16) (r : Reader) (rows : Nat) :
    Except GoErr (ColEnum16 × Reader) :=
  match r.ReadRaw (rows * 2) with
  | .error e => .error (e.wrap "read")
  | .ok (data, rest) => .ok (c ++ decodeEnum16Body data, rest)

/-- Go permits calling `EncodeColumn` on a nil `*Buffer`; `none` models the
nil pointer. The body's first use of the receiver, `offset := len(b.Buf)`,
dereferences it, so a nil argument panics before anything else happens. -/
inductive GoPanicOr (α : Type) : Type
  | panicked
  | ok (a : α)
deriving DecidableEq, Repr

/-- `ColEnum16.EncodeColumn` with the receiver pointer made explicit: on a
nil `*Buffer` the statement `offset := len(b.Buf)` faults. -/
def ColEnum16.EncodeColumnPtr (c : ColEnum16) (b : Option Buffer) :
    GoPanicOr Buffer :=
  match b with
  | none => .panicked
  | some bb => .ok (c.EncodeColumn bb)

/-- `proto.ColArr` as used by `NewArrEnum16`/`AppendEnum16`: the polymorphic
`Data Column` field is always a `*ColEnum16` there (the Go code asserts
`c.Data.(*ColEnum16)`), so it is embedded at that type; `Offsets` is
`[]uint64`, modelled as `List Nat` (Go slice lengths fit in `uint64`). -/
structure ColArr : Type where
  Data : ColEnum16
  Offsets : List Nat
deriving DecidableEq, Repr

/-- `NewArrEnum16()`: `&ColArr{Data: new(ColEnum16)}` — fresh inner column,
nil (empty) offsets. -/
def NewArrEnum16 : ColArr :=
  ⟨[], []⟩

/-- `ColArr.AppendEnum16(data)`: append `data` to the inner column, then
append the inner column's new total length (`uint64(len(*d))`) to
`Offsets`. -/
def ColArr.AppendEnum16 (c : ColArr) (data : List Int) : ColArr :=
  let d := c.Data ++ data
  ⟨d, c.Offsets ++ [d.length]⟩

/-- An arbitrary finite sequence of `AppendEnum16` calls applied in order. -/
def ColArr.appendCalls (c : ColArr) (calls : List (List Int)) : ColArr :=
  calls.foldl ColArr.AppendEnum16 c

/-- The invariant maintained by `AppendEnum16`: offsets are non-decreasing
and the last offset (0 when there is none, as for a fresh column) is the
inner column's length. -/
def ColArr.offsetsInv (c : ColArr) : Prop :=
  List.Chain' (· ≤ ·) c.Offsets ∧ c.Offsets.getLastD 0 = c.Data.length

/-!
The server connection state machine (`src/server.go`).

The `proto` package pieces the server relies on — `Reader.UVarInt`,
`ClientHello.Decode`, `ServerHello.EncodeAware`, the packet code
enumerations — are not among the given sources, so they are modelled from the
spec. The incoming byte stream is abstracted into the sequence of items the
reader's decoding calls peel off it: each `Token.uv` is one well-formed
unsigned varint, `Token.helloPayload` is one well-formed client Hello
payload, and `Token.garbled` stands for bytes that fail the decoder.
Outgoing traffic stays at the byte level (`Nat` below 256), since `flush`
compares a written byte count against the buffer length.
-/

/-- Modelled from the spec: one decodable item on the incoming stream. -/
inductive Token : Type
  | uv (n : Nat)
  | helloPayload (name : String) (version : Nat)
  | garbled
deriving DecidableEq, Repr

/-- `proto.ClientHello` restricted to the fields the server code touches:
`ProtocolVersion` (passed to `EncodeAware`) together with the client name
carried by the payload. The Go zero value has empty name, version 0. -/
structure ClientHello : Type where
  Name : String
  ProtocolVersion : Nat
deriving DecidableEq, Repr

/-- `proto.ServerHello` restricted to the field the server sets: `Name`. -/
structure ServerHello : Type where
  Name : String
deriving DecidableEq, Repr

/-- Modelled from the spec: client packet codes are a closed enumeration
with the wire values of the target protocol — Hello 0, Query 1, Data 2,
Cancel 3, Ping 4, TablesStatusRequest 5. -/
def ClientCodeHello : Nat := 0

/-- Modelled from the spec: the Query client packet code. -/
def ClientCodeQuery : Nat := 1

/-- Modelled from the spec: the Data client packet code. -/
def ClientCodeData : Nat := 2

/-- Modelled from the spec: the Cancel client packet code. -/
def ClientCodeCancel : Nat := 3

/-- Modelled from the spec: the Ping client packet code. -/
def ClientCodePing : Nat := 4

/-- Modelled from the spec: the TablesStatusRequest client packet code. -/
def ClientCodeTablesStatus : Nat := 5

/-- Modelled from the spec: `ClientCode.IsAClientCode` — membership in the
closed client code enumeration; "an out-of-range or unknown code is a
protocol error". -/
def isAClientCode (n : Nat) : Bool :=
  n ≤ 5

/-- Modelled from the spec: the server Pong packet code (wire value 4),
whose `Encode` appends it to the buffer as a single uvarint byte. -/
def ServerCodePong : Nat := 4

/-- Modelled from the spec: `Reader.UVarInt()` decodes one unsigned varint,
"failing if the stream ends mid-sequence" (end of stream) or the bytes are
malformed. -/
def readUVarInt : List Token → Except GoErr (Nat × List Token)
  | .uv n :: rest => .ok (n, rest)
  | [] => .error (GoErr.ofBase .unexpectedEOF)
  | _ :: _ => .error (GoErr.errorf "malformed varint")

/-- Modelled from the spec: `ClientHello.Decode` reads the client Hello
payload (client identity / version fields), failing at end of stream or on
bytes that are not a Hello payload. -/
def decodeClientHello : List Token → Except GoErr (ClientHello × List Token)
  | .helloPayload name v :: rest => .ok (⟨name, v⟩, rest)
  | [] => .error (GoErr.ofBase .unexpectedEOF)
  | _ :: _ => .error (GoErr.errorf "malformed hello")

/-- Modelled from the spec: the unsigned varint wire encoding — little-endian
base-128 groups, continuation bit set on all but the final byte. -/
def uvarint (n : Nat) : List Nat :=
  if h : n < 128 then [n]
  else (n % 128 + 128) :: uvarint (n / 128)
decreasing_by exact Nat.div_lt_self (by omega) (by omega)

/-- Modelled from the spec: the bytes `ServerHello.EncodeAware` appends —
the server Hello packet code followed by name, version and timezone fields
("server replies with Hello packet (name, version, protocol revision,
timezone)"); the exact field bytes follow the wire reference, and nothing
below inspects them. -/
def ServerHello.encodedBytes (info : ServerHello) (protocolVersion : Nat) :
    List Nat :=
  uvarint 0 ++ uvarint info.Name.length
    ++ (info.Name.toList.map fun ch => ch.toNat % 256)
    ++ uvarint protocolVersion

/-- One result of a `conn.Write(p)` call on the transport, scripted per
connection: `ok n` is a return of `(n, nil)`, `err e` a return with a non-nil
error. A well-behaved transport that is not scripted further answers
`ok (len p)`. -/
inductive WriteRes : Type
  | ok (n : Nat)
  | err (e : BaseErr)
deriving DecidableEq, Repr

/-- `ch.ServerConn`: the connection-local state the embedded code
manipulates — the remaining incoming stream (`reader`), the pending output
buffer (`buf`), the hello structures, plus the transport model: the bytes
successfully written so far and the scripted outcomes of future writes. -/
structure ServerConn : Type where
  input : List Token
  buf : List Nat
  client : ClientHello
  info : ServerHello
  sent : List Nat
  net : List WriteRes
deriving DecidableEq, Repr

/-- The result of the next `conn.Write` call on this connection's
transport: the scripted head, or full success when unscripted. -/
def ServerConn.netHead (c : ServerConn) : WriteRes :=
  match c.net with
  | [] => .ok c.buf.length
  | r :: _ => r

/-- The transport write script left after one `conn.Write` call. -/
def ServerConn.netRest (c : ServerConn) : List WriteRes :=
  match c.net with
  | [] => []
  | _ :: rs => rs

/-- `ServerConn.flush`: write the whole pending buffer; a transport error is
wrapped "write", a transfer of fewer bytes than the buffer holds is an
`io.ErrShortWrite` wrapped "wrote less than expected"; only on full success
is the buffer reset. -/
def ServerConn.flush (c : ServerConn) : Except GoErr ServerConn :=
  match c.netHead with
  | .err e => .error ((GoErr.ofBase e).wrap "write")
  | .ok n =>
    if n ≠ c.buf.length then
      .error ((GoErr.ofBase .shortWrite).wrap "wrote less than expected")
    else
      .ok { c with buf := [], sent := c.sent ++ c.buf, net := c.netRest }

/-- `ServerConn.packet`: read one uvarint (wrapping failure with "uvarint"),
convert it to a `ClientCode` and reject values outside the closed client
code enumeration with "bad client packet type %d". -/
def ServerConn.packet (c : ServerConn) : Except GoErr (Nat × ServerConn) :=
  match readUVarInt c.input with
  | .error e => .error (e.wrap "uvarint")
  | .ok (n, rest) =>
    if isAClientCode n then .ok (n, { c with input := rest })
    else .error (GoErr.errorf "bad client packet type %d")

/-- `ServerConn.handshake`: read one packet code (wrap "packet"); any code
other than Hello is "unexpected packet %q"; otherwise decode the client
Hello (wrap "decode hello"), encode the server Hello reply into the buffer
and flush it (wrap "flush"). -/
def ServerConn.handshake (c : ServerConn) : Except GoErr ServerConn :=
  match c.packet with
  | .error e => .error (e.wrap "packet")
  | .ok (p, c1) =>
    if p ≠ ClientCodeHello then .error (GoErr.errorf "unexpected packet %q")
    else
      match decodeClientHello c1.input with
      | .error e => .error (e.wrap "decode hello")
      | .ok (h, rest) =>
        let c2 : ServerConn :=
          { c1 with
            input := rest
            client := h
            buf := c1.buf ++ c1.info.encodedBytes h.ProtocolVersion }
        match c2.flush with
        | .error e => .error (e.wrap "flush")
        | .ok c3 => .ok c3

/-- `ServerConn.handlePing`: encode Pong into the buffer and flush. -/
def ServerConn.handlePing (c : ServerConn) : Except GoErr ServerConn :=
  ServerConn.flush { c with buf := c.buf ++ uvarint ServerCodePong }

/-- `ServerConn.handlePacket`: dispatch on the packet code — Ping goes to
`handlePing`, every other code is "%q not implemented". -/
def ServerConn.handlePacket (c : ServerConn) (p : Nat) : Except GoErr ServerConn :=
  if p = ClientCodePing then c.handlePing
  else .error (GoErr.errorf "%q not implemented")

/-- One iteration of `Handle`'s packet loop either returns from `Handle`
with an error or continues the loop with updated connection state. -/
inductive StepRes : Type
  | continue_ (c : ServerConn)
  | return_ (e : GoErr)
deriving DecidableEq, Repr

/-- One iteration of the `for` loop in `ServerConn.Handle`: read a packet
code (a failure returns it wrapped "packet"), dispatch it (a handler failure
returns it wrapped "handle %q"), and otherwise stay in the loop. -/
def ServerConn.handleStep (c : ServerConn) : StepRes :=
  match c.packet with
  | .error e => .return_ (e.wrap "packet")
  | .ok (p, c1) =>
    match c1.handlePacket p with
    | .error e => .return_ (e.wrap "handle %q")
    | .ok c2 => .continue_ c2

/-- The `for` loop of `ServerConn.Handle`: iterate `handleStep` until an
iteration returns. On a finite incoming stream the loop always terminates,
because a completed iteration consumed the packet-code token (the
`decreasing_by` block re-derives that from the definitions). -/
def ServerConn.handleLoop (c : ServerConn) : GoErr :=
  match h : c.handleStep with
  | .return_ e => e
  | .continue_ c2 => c2.handleLoop
termination_by c.input.length
decreasing_by
  unfold ServerConn.handleStep at h
  split at h
  · exact absurd h (by simp)
  · rename_i p c1 hpk
    split at h
    · exact absurd h (by simp)
    · rename_i c2' hhp
      injection h with hh
      subst hh
      have h2 : c2'.input = c1.input := by
        unfold ServerConn.handlePacket at hhp
        split at hhp
        · unfold ServerConn.handlePing ServerConn.flush at hhp
          split at hhp
          · exact absurd hhp (by simp)
          · split at hhp
            · exact absurd hhp (by simp)
            · injection hhp with hh2
              subst hh2
              rfl
        · exact absurd hhp (by simp)
      rw [h2]
      unfold ServerConn.packet readUVarInt at hpk
      rcases hi : c.input with _ | ⟨tk, rest⟩
      · rw [hi] at hpk
        simp at hpk
      · rcases tk with m | ⟨nm, vv⟩ | _
        · rw [hi] at hpk
          simp only at hpk
          by_cases hc : isAClientCode m
          · simp only [hc, if_true, Except.ok.injEq, Prod.mk.injEq] at hpk
            obtain ⟨hm, hc1⟩ := hpk
            subst hm
            subst hc1
            simp
          · simp [hc] at hpk
        · rw [hi] at hpk
          simp at hpk
        · rw [hi] at hpk
          simp at hpk

/-- `ServerConn.Handle`: run the handshake (a failure returns it wrapped
"handshake"), then the packet loop. -/
def ServerConn.Handle (c : ServerConn) : GoErr :=
  match c.handshake with
  | .error e => e.wrap "handshake"
  | .ok c1 => c1.handleLoop

/-- `Server.handle(conn)`: construct the fresh per-connection state exactly
as the Go code does — empty buffer, zero-value `ClientHello`, server info
named "CH" — and drive `Handle`. -/
def Server.handle (input : List Token) (net : List WriteRes) : GoErr :=
  ServerConn.Handle
    { input := input
      buf := []
      client := ⟨"", 0⟩
      info := ⟨"CH"⟩
      sent := []
      net := net }

/-- One event observed by a worker's serve loop, in order: a cancellation
visible before the accept, a failing accept, or an accepted connection
carrying its incoming stream and transport write script. -/
inductive AcceptEvent : Type
  | cancelled (e : GoErr)
  | acceptErr (e : GoErr)
  | conn (input : List Token) (net : List WriteRes)

/-- The outcome of running `Server.serve` against a finite event script:
either the loop returned with an error, or it is still serving (waiting for
further events). -/
inductive ServeOutcome : Type
  | returned (e : GoErr)
  | serving
deriving DecidableEq, Repr

/-- `Server.serve`: loop — return `ctx.Err()` when cancelled, return a
failing accept wrapped "accept", and otherwise run the connection handler:
an `io.ErrUnexpectedEOF` handler result continues silently, any other
handler error is logged (`lg.Error("Handle", ...)`) and the loop likewise
continues. The second component accumulates the logged errors. -/
def Server.serve : List AcceptEvent → List GoErr → ServeOutcome × List GoErr
  | [], log => (.serving, log)
  | .cancelled e :: _, log => (.returned e, log)
  | .acceptErr e :: _, log => (.returned (e.wrap "accept"), log)
  | .conn input net :: rest, log =>
    let e := Server.handle input net
    if e.base = .unexpectedEOF then Server.serve rest log
    else Server.serve rest (log ++ [e])

/-! Helper lemmas for the Enum16 column codec. -/

theorem uint16ofInt_lt (v : Int) : uint16ofInt v < 65536 := by
  unfold uint16ofInt
  omega

theorem enum16_uint16_roundtrip (v : Int) (h : Enum16.isValid v) :
    enum16ofUint16 (uint16ofInt v) = v := by
  obtain ⟨h1, h2⟩ := h
  unfold enum16ofUint16 uint16ofInt
  split <;> omega

theorem encodeEnum16_length (l : List Int) :
    ((l.map fun v => putUint16 (uint16ofInt v)).flatten).length = l.length * 2 := by
  induction l with
  | nil => rfl
  | cons v t ih =>
    simp only [List.map_cons, List.flatten_cons, List.length_append, ih]
    simp only [putUint16, List.length_cons, List.length_nil]
    omega

theorem decodeEnum16Body_length : ∀ bs : List Nat,
    (decodeEnum16Body bs).length = bs.length / 2
  | [] => rfl
  | [_] => by simp [decodeEnum16Body]
  | _ :: _ :: rest => by
    simp only [decodeEnum16Body, List.length_cons]
    rw [decodeEnum16Body_length rest]
    omega

theorem decodeEnum16Body_encode (l : List Int) (hl : ∀ v ∈ l, Enum16.isValid v) :
    decodeEnum16Body ((l.map fun v => putUint16 (uint16ofInt v)).flatten) = l := by
  induction l with
  | nil => rfl
  | cons v t ih =>
    have hv : Enum16.isValid v := hl v (by simp)
    have ht : ∀ x ∈ t, Enum16.isValid x := fun x hx => hl x (by simp [hx])
    simp only [List.map_cons, List.flatten_cons, putUint16, List.cons_append,
      List.nil_append, decodeEnum16Body]
    congr 1
    · have h1 : uint16ofInt v < 65536 := uint16ofInt_lt v
      have h2 := enum16_uint16_roundtrip v hv
      unfold binUint16
      rw [show uint16ofInt v % 256 % 256 + uint16ofInt v / 256 % 256 % 256 * 256
            = uint16ofInt v by omega]
      exact h2
    · exact ih ht

theorem decodeColumn_exact (c : ColEnum16) (data : List Nat) (rows : Nat)
    (h : data.length = rows * 2) :
    ColEnum16.DecodeColumn c ⟨data, 0⟩ rows
      = .ok (c ++ decodeEnum16Body data, ⟨data, rows * 2⟩) := by
  unfold ColEnum16.DecodeColumn Reader.ReadRaw
  dsimp only
  rw [if_pos (by omega)]
  simp only [List.drop_zero, Nat.zero_add]
  rw [List.take_of_length_le (by omega)]

/-! Helper lemmas for the Array(Enum16) offsets invariant. -/

theorem ColArr.offsetsInv_append (c : ColArr) (data : List Int)
    (h : c.offsetsInv) : (c.AppendEnum16 data).offsetsInv := by
  obtain ⟨h1, h2⟩ := h
  unfold ColArr.offsetsInv ColArr.AppendEnum16
  dsimp only
  constructor
  · apply List.Chain'.append h1 (List.chain'_singleton _)
    intro x hx y hy
    simp only [List.head?_cons, Option.mem_def, Option.some.injEq] at hy
    subst hy
    have hx' : c.Offsets.getLastD 0 = x := by
      rw [List.getLastD_eq_getLast?, hx]
      rfl
    rw [hx'] at h2
    simp only [List.length_append]
    omega
  · simp [List.getLastD_concat]

theorem ColArr.offsetsInv_appendCalls (calls : List (List Int)) :
    ∀ c : ColArr, c.offsetsInv → (c.appendCalls calls).offsetsInv := by
  induction calls with
  | nil => exact fun c h => h
  | cons d t ih =>
    intro c h
    exact ih _ (ColArr.offsetsInv_append c d h)

theorem ColArr.appendCalls_offsets_length (calls : List (List Int)) :
    ∀ c : ColArr,
      (c.appendCalls calls).Offsets.length = c.Offsets.length + calls.length := by
  induction calls with
  | nil => intro c; rfl
  | cons d t ih =>
    intro c
    show ((c.AppendEnum16 d).appendCalls t).Offsets.length = _
    rw [ih]
    simp [ColArr.AppendEnum16, List.length_cons]
    omega

/-! The claims. -/

/-- C1: encoding any finite sequence of Enum16 values (empty included) with
`ColEnum16.EncodeColumn` into a fresh `Buffer` and decoding those bytes with
`ColEnum16.DecodeColumn(r, n)` into a fresh column, `n` being the sequence
length, reproduces the sequence exactly, and the decoded column's `Rows()`
equals `n`. -/
theorem claim_C1_enum16_roundtrip (l : List Int)
    (hl : ∀ v ∈ l, Enum16.isValid v) :
    ∃ r' : Reader,
      ColEnum16.DecodeColumn ([] : ColEnum16)
          ⟨(ColEnum16.EncodeColumn l ⟨[]⟩).Buf, 0⟩ l.length = .ok (l, r') ∧
      ColEnum16.Rows l = l.length := by
  have hbuf : (ColEnum16.EncodeColumn l ⟨[]⟩).Buf
      = (l.map fun v => putUint16 (uint16ofInt v)).flatten := by
    simp [ColEnum16.EncodeColumn]
  refine ⟨⟨(l.map fun v => putUint16 (uint16ofInt v)).flatten, l.length * 2⟩, ?_, rfl⟩
  rw [hbuf, decodeColumn_exact _ _ _ (encodeEnum16_length l),
    decodeEnum16Body_encode l hl]
  simp

/-- C1 witness: the round trip at the concrete sequence
`[0, 1, -1, 32767, -32768]`. -/
theorem claim_C1_enum16_roundtrip_witness :
    ∃ r' : Reader,
      ColEnum16.DecodeColumn ([] : ColEnum16)
          ⟨(ColEnum16.EncodeColumn [0, 1, -1, 32767, -32768] ⟨[]⟩).Buf, 0⟩ 5
        = .ok ([0, 1, -1, 32767, -32768], r') ∧
      ColEnum16.Rows [0, 1, -1, 32767, -32768] = 5 :=
  claim_C1_enum16_roundtrip [0, 1, -1, 32767, -32768] (by decide)

/-- C2 counterexample: `DecodeColumn` appends to the receiver, so decoding
`n = 0` rows into the non-empty column `[7]` succeeds yet leaves
`Rows() = 1 ≠ 0`; the claim's "in any starting state" fails. -/
theorem claim_C2_rows_counterexample :
    ColEnum16.DecodeColumn [(7 : Int)] ⟨[], 0⟩ 0 = .ok ([7], ⟨[], 0⟩) ∧
    ColEnum16.Rows [(7 : Int)] ≠ 0 := by
  constructor
  · rfl
  · decide

/-- C2 amended: after a successful `DecodeColumn(r, n)`, `Rows()` equals the
receiver's previous `Rows()` plus `n` (so it equals `n` exactly when the
column started empty, e.g. fresh or just reset). -/
theorem claim_C2_rows_after_decode (c dec : ColEnum16) (r r' : Reader)
    (rows : Nat) (h : ColEnum16.DecodeColumn c r rows = .ok (dec, r')) :
    ColEnum16.Rows dec = ColEnum16.Rows c + rows := by
  unfold ColEnum16.DecodeColumn Reader.ReadRaw at h
  split at h
  · exact absurd h (by simp)
  · rename_i data rest heq
    injection h with hh
    injection hh with h1 h2
    split at heq
    · rename_i hle
      injection heq with heq2
      injection heq2 with hd hr
      subst hd
      unfold ColEnum16.Rows
      rw [← h1]
      simp only [List.length_append, decodeEnum16Body_length, List.length_take,
        List.length_drop]
      omega
    · exact absurd heq (by simp)

/-- C2 witness: decoding one row into the one-element column `[1]` from the
two-byte source `[5, 0]` gives a column of 2 = 1 + 1 rows. -/
theorem claim_C2_rows_after_decode_witness :
    ColEnum16.Rows [(1 : Int), 5] = ColEnum16.Rows [(1 : Int)] + 1 :=
  claim_C2_rows_after_decode [(1 : Int)] [(1 : Int), 5] ⟨[5, 0], 0⟩
    ⟨[5, 0], 2⟩ 1 rfl

/-- C3: for `rows > 0`, decoding from a byte source holding fewer than
`rows * 2` bytes returns the end-of-stream error `io.ErrUnexpectedEOF`
wrapped "read" — a total, error-returning outcome, not a panic and not a
silent zero-fill. -/
theorem claim_C3_truncation (c : ColEnum16) (data : List Nat) (rows : Nat)
    (hrows : 0 < rows) (hshort : data.length < rows * 2) :
    ColEnum16.DecodeColumn c ⟨data, 0⟩ rows
      = .error ⟨.unexpectedEOF, ["read"]⟩ := by
  unfold ColEnum16.DecodeColumn Reader.ReadRaw
  dsimp only
  rw [if_neg (by omega)]
  rfl

/-- C3 witness: one row from an empty source fails with
`io.ErrUnexpectedEOF`. -/
theorem claim_C3_truncation_witness :
    ColEnum16.DecodeColumn ([] : ColEnum16) ⟨[], 0⟩ 1
      = .error ⟨.unexpectedEOF, ["read"]⟩ :=
  claim_C3_truncation [] [] 1 (by decide) (by decide)

/-- C4: on any non-nil `Buffer` the empty column's `EncodeColumn` leaves the
buffer unchanged; but Go also admits the nil `*Buffer` the generated test
`ZeroRowsEncode` passes ("should be no-op"), and there the code's very first
statement `offset := len(b.Buf)` dereferences nil and panics — the code
contradicts its own test. -/
theorem claim_C4_empty_encode_nil_buffer :
    (∀ b : Buffer, ColEnum16.EncodeColumn [] b = b) ∧
    ColEnum16.EncodeColumnPtr ([] : ColEnum16) none = .panicked := by
  constructor
  · intro b
    cases b
    simp [ColEnum16.EncodeColumn]
  · rfl

/-- C5: `AppendEnum16` appends the values to the inner column and then the
inner column's new total row count to `Offsets`; consequently, starting from
`NewArrEnum16()`, after any sequence of calls the offsets are monotonically
non-decreasing and the last offset equals `Data.Rows()`. -/
theorem claim_C5_appendEnum16_offsets :
    (∀ (c : ColArr) (data : List Int),
        (c.AppendEnum16 data).Data = c.Data ++ data ∧
        (c.AppendEnum16 data).Offsets
          = c.Offsets ++ [ColEnum16.Rows (c.Data ++ data)]) ∧
    (∀ calls : List (List Int),
        List.Chain' (· ≤ ·) (NewArrEnum16.appendCalls calls).Offsets ∧
        (calls ≠ [] →
          (NewArrEnum16.appendCalls calls).Offsets.getLast?
            = some (ColEnum16.Rows (NewArrEnum16.appendCalls calls).Data))) := by
  constructor
  · exact fun c data => ⟨rfl, rfl⟩
  · intro calls
    have hinv : (NewArrEnum16.appendCalls calls).offsetsInv :=
      ColArr.offsetsInv_appendCalls calls NewArrEnum16 ⟨List.chain'_nil, rfl⟩
    obtain ⟨h1, h2⟩ := hinv
    refine ⟨h1, fun hne => ?_⟩
    have hlen : (NewArrEnum16.appendCalls calls).Offsets.length
        = calls.length := by
      rw [ColArr.appendCalls_offsets_length]
      simp [NewArrEnum16]
    have hnil : (NewArrEnum16.appendCalls calls).Offsets ≠ [] := by
      intro habs
      rw [habs] at hlen
      exact hne (List.length_eq_zero.mp hlen.symm)
    rcases hgl : (NewArrEnum16.appendCalls calls).Offsets.getLast? with _ | x
    · exact absurd (List.getLast?_eq_none_iff.mp hgl) hnil
    · rw [List.getLastD_eq_getLast?, hgl] at h2
      simpa [ColEnum16.Rows] using congrArg some h2

/-- C5 witness: two concrete calls on a fresh array column. -/
theorem claim_C5_appendEnum16_offsets_witness :
    List.Chain' (· ≤ ·) (NewArrEnum16.appendCalls [[1, 2], [3]]).Offsets ∧
    (NewArrEnum16.appendCalls [[1, 2], [3]]).Offsets.getLast?
      = some (ColEnum16.Rows (NewArrEnum16.appendCalls [[1, 2], [3]]).Data) :=
  ⟨(claim_C5_appendEnum16_offsets.2 [[1, 2], [3]]).1,
   (claim_C5_appendEnum16_offsets.2 [[1, 2], [3]]).2 (by decide)⟩

/-! Helper lemmas for the server state machine. -/

theorem ServerConn.flush_ok_frame (c c' : ServerConn) (h : c.flush = .ok c') :
    c'.input = c.input ∧ c'.buf = [] ∧ c'.sent = c.sent ++ c.buf ∧
      c'.client = c.client ∧ c'.info = c.info := by
  unfold ServerConn.flush at h
  split at h
  · exact absurd h (by simp)
  · split at h
    · exact absurd h (by simp)
    · injection h with hh
      subst hh
      exact ⟨rfl, rfl, rfl, rfl, rfl⟩

theorem packet_uv (c : ServerConn) (n : Nat) (rest : List Token)
    (hin : c.input = Token.uv n :: rest) :
    c.packet = if isAClientCode n then .ok (n, { c with input := rest })
               else .error (GoErr.errorf "bad client packet type %d") := by
  unfold ServerConn.packet readUVarInt
  rw [hin]

theorem handleLoop_continue (c c2 : ServerConn)
    (h : c.handleStep = .continue_ c2) : c.handleLoop = c2.handleLoop := by
  rw [ServerConn.handleLoop]
  split
  · rename_i e he
    rw [he] at h
    exact absurd h (by simp)
  · rename_i c2' hc2
    rw [hc2] at h
    injection h with hh
    rw [hh]

theorem handleLoop_return (c : ServerConn) (e : GoErr)
    (h : c.handleStep = .return_ e) : c.handleLoop = e := by
  rw [ServerConn.handleLoop]
  split
  · rename_i e' he
    rw [he] at h
    injection h
  · rename_i c2' hc2
    rw [hc2] at h
    exact absurd h (by simp)

/-- C6: the handshake gate — a valid client code other than Hello as first
packet makes `handshake` (and thus `Handle`) fail with "unexpected packet"
before anything else is processed; an invalid code fails with "bad client
packet type"; a Hello first packet is decoded into `client`, answered by the
encoded server Hello reply which is flushed to the transport (`sent`), and
only then does `Handle` enter the packet loop. -/
theorem claim_C6_handshake_gate :
    (∀ (c : ServerConn) (n : Nat) (rest : List Token),
        c.input = Token.uv n :: rest → isAClientCode n = true →
        n ≠ ClientCodeHello →
        c.handshake = .error (GoErr.errorf "unexpected packet %q") ∧
        c.Handle = (GoErr.errorf "unexpected packet %q").wrap "handshake") ∧
    (∀ (c : ServerConn) (n : Nat) (rest : List Token),
        c.input = Token.uv n :: rest → isAClientCode n = false →
        c.handshake
          = .error ((GoErr.errorf "bad client packet type %d").wrap "packet") ∧
        c.Handle
          = ((GoErr.errorf "bad client packet type %d").wrap "packet").wrap
              "handshake") ∧
    (∀ (c : ServerConn) (name : String) (v : Nat) (rest : List Token),
        c.input = Token.uv ClientCodeHello :: Token.helloPayload name v :: rest →
        c.net = [] →
        c.handshake = .ok ⟨rest, [], ⟨name, v⟩, c.info,
            c.sent ++ (c.buf ++ c.info.encodedBytes v), []⟩ ∧
        c.Handle = ServerConn.handleLoop ⟨rest, [], ⟨name, v⟩, c.info,
            c.sent ++ (c.buf ++ c.info.encodedBytes v), []⟩) := by
  refine ⟨?_, ?_, ?_⟩
  · intro c n rest hin hcode hne
    have hs : c.handshake = .error (GoErr.errorf "unexpected packet %q") := by
      unfold ServerConn.handshake
      rw [packet_uv c n rest hin, if_pos hcode]
      dsimp only
      rw [if_pos hne]
    refine ⟨hs, ?_⟩
    unfold ServerConn.Handle
    rw [hs]
  · intro c n rest hin hcode
    have hs : c.handshake
        = .error ((GoErr.errorf "bad client packet type %d").wrap "packet") := by
      unfold ServerConn.handshake
      rw [packet_uv c n rest hin, if_neg (by simp [hcode])]
    refine ⟨hs, ?_⟩
    unfold ServerConn.Handle
    rw [hs]
  · intro c name v rest hin hnet
    have hs : c.handshake = .ok ⟨rest, [], ⟨name, v⟩, c.info,
        c.sent ++ (c.buf ++ c.info.encodedBytes v), []⟩ := by
      unfold ServerConn.handshake
      rw [packet_uv c ClientCodeHello (Token.helloPayload name v :: rest) hin,
        if_pos (by decide)]
      dsimp only
      rw [if_neg (by decide)]
      unfold decodeClientHello
      dsimp only
      unfold ServerConn.flush ServerConn.netHead ServerConn.netRest
      dsimp only
      rw [hnet]
      dsimp only
      rw [if_neg (by omega)]
    refine ⟨hs, ?_⟩
    unfold ServerConn.Handle
    rw [hs]

/-- C6 witness: the three handshake outcomes at concrete connections — first
packet Ping (code 4), first packet an invalid code (6), and a proper Hello
followed by the reply flush. -/
theorem claim_C6_handshake_gate_witness :
    (ServerConn.handshake ⟨[Token.uv 4], [], ⟨"", 0⟩, ⟨"CH"⟩, [], []⟩
        = .error (GoErr.errorf "unexpected packet %q")) ∧
    (ServerConn.handshake ⟨[Token.uv 6], [], ⟨"", 0⟩, ⟨"CH"⟩, [], []⟩
        = .error ((GoErr.errorf "bad client packet type %d").wrap "packet")) ∧
    (ServerConn.handshake
        ⟨[Token.uv 0, Token.helloPayload "clickhouse-go" 54451], [],
          ⟨"", 0⟩, ⟨"CH"⟩, [], []⟩
      = .ok ⟨[], [], ⟨"clickhouse-go", 54451⟩, ⟨"CH"⟩,
          [] ++ ([] ++ ServerHello.encodedBytes ⟨"CH"⟩ 54451), []⟩) :=
  ⟨(claim_C6_handshake_gate.1 ⟨[Token.uv 4], [], ⟨"", 0⟩, ⟨"CH"⟩, [], []⟩ 4 []
      rfl (by decide) (by decide)).1,
   (claim_C6_handshake_gate.2.1 ⟨[Token.uv 6], [], ⟨"", 0⟩, ⟨"CH"⟩, [], []⟩ 6 []
      rfl (by decide)).1,
   (claim_C6_handshake_gate.2.2
      ⟨[Token.uv 0, Token.helloPayload "clickhouse-go" 54451], [],
        ⟨"", 0⟩, ⟨"CH"⟩, [], []⟩ "clickhouse-go" 54451 [] rfl rfl).1⟩

/-- C7: a post-handshake connection (empty pending buffer) receiving one
Ping packet over a working transport encodes exactly one Pong reply and
flushes it (`sent` grows by exactly the encoded Pong), and the loop
iteration continues — `Handle` does not return, the loop goes on with the
rest of the stream. -/
theorem claim_C7_ping_pong (c : ServerConn) (rest : List Token)
    (hin : c.input = Token.uv ClientCodePing :: rest)
    (hbuf : c.buf = []) (hnet : c.net = []) :
    c.handleStep = .continue_ ⟨rest, [], c.client, c.info,
        c.sent ++ uvarint ServerCodePong, []⟩ ∧
    c.handleLoop = ServerConn.handleLoop ⟨rest, [], c.client, c.info,
        c.sent ++ uvarint ServerCodePong, []⟩ := by
  have hstep : c.handleStep = .continue_ ⟨rest, [], c.client, c.info,
      c.sent ++ uvarint ServerCodePong, []⟩ := by
    unfold ServerConn.handleStep
    rw [packet_uv c ClientCodePing rest hin, if_pos (by decide)]
    dsimp only
    unfold ServerConn.handlePacket
    rw [if_pos rfl]
    unfold ServerConn.handlePing ServerConn.flush ServerConn.netHead
      ServerConn.netRest
    dsimp only
    rw [hnet]
    dsimp only
    rw [if_neg (by omega)]
    rw [hbuf]
    dsimp only
    rw [List.nil_append]
  exact ⟨hstep, handleLoop_continue _ _ hstep⟩

/-- C7 witness: a concrete freshly-handshaken connection receiving Ping. -/
theorem claim_C7_ping_pong_witness :
    ServerConn.handleStep ⟨[Token.uv 4], [], ⟨"", 0⟩, ⟨"CH"⟩, [9], []⟩
      = .continue_ ⟨[], [], ⟨"", 0⟩, ⟨"CH"⟩, [9] ++ uvarint ServerCodePong, []⟩ :=
  (claim_C7_ping_pong ⟨[Token.uv 4], [], ⟨"", 0⟩, ⟨"CH"⟩, [9], []⟩ []
    rfl rfl rfl).1

/-- C8: `flush` writes the entire pending buffer or returns an error — a
transport error is returned wrapped "write", a write reported as fewer bytes
than the buffer length returns `io.ErrShortWrite` ("wrote less than
expected"), and a successful `flush` implies the transport accepted exactly
the whole buffer, the bytes were transferred, and only then is the buffer
reset to empty. -/
theorem claim_C8_flush_contract :
    (∀ (c : ServerConn) (e : BaseErr), c.netHead = .err e →
        c.flush = .error ((GoErr.ofBase e).wrap "write")) ∧
    (∀ (c : ServerConn) (n : Nat), c.netHead = .ok n → n ≠ c.buf.length →
        c.flush
          = .error ((GoErr.ofBase .shortWrite).wrap "wrote less than expected")) ∧
    (∀ (c c' : ServerConn), c.flush = .ok c' →
        c.netHead = .ok c.buf.length ∧ c'.sent = c.sent ++ c.buf ∧
        c'.buf = []) := by
  refine ⟨?_, ?_, ?_⟩
  · intro c e h
    unfold ServerConn.flush
    rw [h]
  · intro c n h hne
    unfold ServerConn.flush
    rw [h]
    dsimp only
    rw [if_pos hne]
  · intro c c' h
    have hf := ServerConn.flush_ok_frame c c' h
    refine ⟨?_, hf.2.2.1, hf.2.1⟩
    unfold ServerConn.flush at h
    split at h
    · exact absurd h (by simp)
    · rename_i n hn
      split at h
      · exact absurd h (by simp)
      · rename_i hnn
        rw [hn, not_not.mp hnn]

/-- C8 witness: the three flush outcomes on concrete connections — a failing
transport, a short write of 0 of 1 pending bytes, and a full write of the
one-byte buffer. -/
theorem claim_C8_flush_contract_witness :
    (ServerConn.flush ⟨[], [1], ⟨"", 0⟩, ⟨"CH"⟩, [], [.err (.msg "broken pipe")]⟩
        = .error ((GoErr.ofBase (.msg "broken pipe")).wrap "write")) ∧
    (ServerConn.flush ⟨[], [1], ⟨"", 0⟩, ⟨"CH"⟩, [], [.ok 0]⟩
        = .error ((GoErr.ofBase .shortWrite).wrap "wrote less than expected")) ∧
    (ServerConn.netHead ⟨[], [1], ⟨"", 0⟩, ⟨"CH"⟩, [7], []⟩ = .ok 1 ∧
      ([7] : List Nat) ++ [1] = [7] ++ [1] ∧ ([] : List Nat) = []) :=
  ⟨claim_C8_flush_contract.1 ⟨[], [1], ⟨"", 0⟩, ⟨"CH"⟩, [], [.err (.msg "broken pipe")]⟩
      (.msg "broken pipe") rfl,
   claim_C8_flush_contract.2.1 ⟨[], [1], ⟨"", 0⟩, ⟨"CH"⟩, [], [.ok 0]⟩ 0
      rfl (by decide),
   claim_C8_flush_contract.2.2 ⟨[], [1], ⟨"", 0⟩, ⟨"CH"⟩, [7], []⟩
      ⟨[], [], ⟨"", 0⟩, ⟨"CH"⟩, [7, 1], []⟩ rfl⟩

/-- C9: the worker's serve loop never ends because of a connection handler
error — a handler result whose underlying error is `io.ErrUnexpectedEOF`
continues to the next accept without logging, any other handler error is
logged and the loop continues; on a script of connection events alone the
loop never returns, and only a failing accept (wrapped "accept") or
cancellation makes `serve` return. -/
theorem claim_C9_serve_resilience :
    (∀ (input : List Token) (net : List WriteRes) (rest : List AcceptEvent)
        (log : List GoErr),
        Server.serve (.conn input net :: rest) log
          = if (Server.handle input net).base = .unexpectedEOF
            then Server.serve rest log
            else Server.serve rest (log ++ [Server.handle input net])) ∧
    (∀ (evs : List AcceptEvent) (log : List GoErr),
        (∀ ev ∈ evs, ∃ input net, ev = AcceptEvent.conn input net) →
        (Server.serve evs log).1 = .serving) ∧
    (∀ (e : GoErr) (rest : List AcceptEvent) (log : List GoErr),
        Server.serve (.acceptErr e :: rest) log
          = (.returned (e.wrap "accept"), log)) ∧
    (∀ (e : GoErr) (rest : List AcceptEvent) (log : List GoErr),
        Server.serve (.cancelled e :: rest) log = (.returned e, log)) := by
  refine ⟨fun _ _ _ _ => rfl, ?_, fun _ _ _ => rfl, fun _ _ _ => rfl⟩
  intro evs
  induction evs with
  | nil => intro log _; rfl
  | cons ev rest ih =>
    intro log hconn
    obtain ⟨input, net, hev⟩ := hconn ev (by simp)
    subst hev
    have hrest : ∀ ev ∈ rest, ∃ input net, ev = AcceptEvent.conn input net :=
      fun ev hev => hconn ev (by simp [hev])
    show (Server.serve (.conn input net :: rest) log).1 = .serving
    unfold Server.serve
    dsimp only
    split
    · exact ih log hrest
    · exact ih (log ++ [Server.handle input net]) hrest

/-- C9 witness: a script of two connection events (one failing with a
protocol violation, one with end-of-stream) leaves the worker serving. -/
theorem claim_C9_serve_resilience_witness :
    (Server.serve [.conn [Token.uv 6] [], .conn [] []] []).1 = .serving :=
  claim_C9_serve_resilience.2.1 [.conn [Token.uv 6] [], .conn [] []] []
    (by
      intro ev hev
      simp only [List.mem_cons, List.not_mem_nil, or_false] at hev
      rcases hev with h | h
      · exact ⟨[Token.uv 6], [], h⟩
      · exact ⟨[], [], h⟩)

/-- C10: `handlePacket` answers every code other than Ping — Hello, Query,
Data, Cancel, TablesStatusRequest included — with "%q not implemented", so
one loop iteration on any valid non-Ping packet makes `Handle` return that
error wrapped "handle %q"; Ping is the only code with a working handler. -/
theorem claim_C10_only_ping_implemented :
    (∀ (c : ServerConn) (p : Nat), p ≠ ClientCodePing →
        c.handlePacket p = .error (GoErr.errorf "%q not implemented")) ∧
    (∀ (c : ServerConn) (n : Nat) (rest : List Token),
        c.input = Token.uv n :: rest → isAClientCode n = true →
        n ≠ ClientCodePing →
        c.handleStep = .return_
          ((GoErr.errorf "%q not implemented").wrap "handle %q") ∧
        c.handleLoop = (GoErr.errorf "%q not implemented").wrap "handle %q") := by
  have h1 : ∀ (c : ServerConn) (p : Nat), p ≠ ClientCodePing →
      c.handlePacket p = .error (GoErr.errorf "%q not implemented") := by
    intro c p hp
    unfold ServerConn.handlePacket
    rw [if_neg hp]
  refine ⟨h1, ?_⟩
  intro c n rest hin hcode hne
  have hstep : c.handleStep = .return_
      ((GoErr.errorf "%q not implemented").wrap "handle %q") := by
    unfold ServerConn.handleStep
    rw [packet_uv c n rest hin, if_pos hcode]
    dsimp only
    rw [h1 _ n hne]
  exact ⟨hstep, handleLoop_return _ _ hstep⟩

/-- C10 witness: a Query packet (code 1) right after the handshake makes the
dispatcher fail with "not implemented" and `Handle` return. -/
theorem claim_C10_only_ping_implemented_witness :
    ServerConn.handleStep ⟨[Token.uv 1], [], ⟨"", 0⟩, ⟨"CH"⟩, [], []⟩
      = .return_ ((GoErr.errorf "%q not implemented").wrap "handle %q") :=
  (claim_C10_only_ping_implemented.2 ⟨[Token.uv 1], [], ⟨"", 0⟩, ⟨"CH"⟩, [], []⟩
    1 [] rfl (by decide) (by decide)).1
